import Mathlib

/-!
# Verification of the configuration overlay and persistence utilities

A shallow embedding of the configuration-overlay subsystem of
`pytorch/libs/support/utils.py` (asv-subtools): the default/override
parameter merge (`assign_params_dict`), the dotted-key namespace splitter
(`split_params`), the nnet-config record writer/reader
(`write_nnet_config` / `read_nnet_config`), and the model-directory
staging helper (`create_model_dir`).

Modelling conventions:
* Python dictionaries are insertion-ordered association lists
  (`List (String × Value)`); update keeps position, new keys append.
* Python values are a tagged union `Value` over the tags used by the
  configuration system (bool, int, float, str, None, nested dict).
  Python `bool` is a subclass of `int`; the `isinstance` model below
  reflects that.  `float` payloads are modelled as exact rationals: the
  merge only ever forms `n * 1.0` from machine-small integers, where
  IEEE-754 arithmetic is exact.
* Raised exceptions become `PyError` values; a function that both
  mutates its argument and can raise returns the final state of the
  mutated argument together with `Option PyError`.
-/

/-- Python type tags relevant to the configuration system. -/
inductive PyType where
  | bool
  | int
  | float
  | str
  | noneType
  | dict
deriving DecidableEq, Repr

/-- A Python configuration value: tagged union over
bool / int / float / str / None / nested string-keyed dict. -/
inductive Value where
  | bool (b : Bool)
  | int (n : Int)
  | float (q : Rat)
  | str (s : String)
  | none
  | dict (entries : List (String × Value))

/-- The tag `type(v)` of a value. -/
def Value.ptype : Value → PyType
  | .bool _ => .bool
  | .int _ => .int
  | .float _ => .float
  | .str _ => .str
  | .none => .noneType
  | .dict _ => .dict

/-- The test `v is None`. -/
def Value.isNone : Value → Bool
  | .none => true
  | _ => false

/-- A Python dict of configuration values, in insertion order. -/
abbrev Params := List (String × Value)

/-- Dict lookup `d[k]` / `k in d` (first entry wins, as keys are unique). -/
def dictGet {α : Type} (l : List (String × α)) (k : String) : Option α :=
  match l with
  | [] => Option.none
  | (k', v) :: rest => if k' = k then some v else dictGet rest k

/-- Dict assignment `d[k] = v`: replaces the value in place for an existing
key (keeping its position), appends a fresh key at the end. -/
def dictSet {α : Type} (l : List (String × α)) (k : String) (v : α) :
    List (String × α) :=
  match l with
  | [] => [(k, v)]
  | (k', v') :: rest => if k' = k then (k', v) :: rest else (k', v') :: dictSet rest k v

/-- Python `isinstance(v, type(w))` on configuration values.  Python's `bool` is a
subclass of `int`, so a bool is an instance of `int`; no other cross-tag
instance relations arise among these tags. -/
def isinstOfType (v w : Value) : Bool :=
  v.ptype = w.ptype || (v.ptype = PyType.bool && w.ptype = PyType.int)

/-- Python `isinstance(v, float)`. -/
def isFloatInst (v : Value) : Bool :=
  v.ptype = PyType.float

/-- Python `isinstance(v, int)` — true for ints and for bools (subclass). -/
def isIntInst (v : Value) : Bool :=
  v.ptype = PyType.int || v.ptype = PyType.bool

/-- The widening `x * 1.0` for an `x` passing `isinstance(x, int)`: numeric widening of
an int (or bool) to float.  Multiplying by `1.0` promotes to float while
preserving the value exactly, so it is modelled as the exact conversion.
Other tags are unreachable at the call site. -/
def timesOne : Value → Value
  | .int n => .float (Rat.ofInt n)
  | .bool b => .float (if b then 1 else 0)
  | v => v

/-- Exceptions raised by the functions modelled here. -/
inductive PyError where
  | nameError (name : String)
  | typeMismatch (defaultType paramType : PyType) (key : String)
  | malformedKey (key : String)
deriving DecidableEq, Repr

/-- One iteration of the merge loop of `assign_params_dict` for item
`(k, v)` of `default_params`: the new value stored at `k`, or the raised
`ValueError`.  Mirrors lines 256–266 of the source:
if `k in params`, take `params[k]` when `isinstance(v, type(params[k]))`,
widen via `params[k] * 1.0` when the default is float and the override an
int, take `params[k]` when either side is `None`, else raise naming the
two types and the key. -/
def mergeStep (params : Params) (k : String) (v : Value) : Except PyError Value :=
  match dictGet params k with
  | Option.none => .ok v
  | some pv =>
    if isinstOfType v pv then .ok pv
    else if isFloatInst v && isIntInst pv then .ok (timesOne pv)
    else if v.isNone || pv.isNone then .ok pv
    else .error (.typeMismatch v.ptype pv.ptype k)

/-- The merge loop of `assign_params_dict` over the items of
`default_params`, mutating values in place.  Returns the final state of
the list (on an exception: items before the failing key updated, the
failing item and the rest untouched) together with the exception. -/
def mergeList (params : Params) : Params → Params × Option PyError
  | [] => ([], Option.none)
  | (k, v) :: rest =>
    match mergeStep params k v with
    | .error e => ((k, v) :: rest, some e)
    | .ok v' =>
      let r := mergeList params rest
      ((k, v') :: r.1, r.2)

/-- The merged value stored at an item `(k, v)` of `default_params` when
the merge loop does not raise at that item. -/
def mergeValue (params : Params) (k : String) (v : Value) : Value :=
  match mergeStep params k v with
  | .ok v' => v'
  | .error _ => v

/-- Model of `assign_params_dict(default_params, params, force_check, support_unknow)`
(utils.py lines 245–274).  Returns the final state of `default_params`
(which the Python code mutates in place and returns) together with the
raised exception, if any.

Note the source bug kept faithfully: the `force_check` branch iterates
over `param.keys()` where no name `param` is bound (the parameter is
`params`), so entering that branch raises
`NameError: name 'param' is not defined` before anything is merged; the
intended `ValueError("The params key ... is not in default params")` of
line 252 is unreachable. -/
def assign_params_dict (default_params params : Params)
    (force_check support_unknow : Bool) : Params × Option PyError :=
  let default_keys := default_params.map Prod.fst
  if force_check then
    (default_params, some (.nameError "param"))
  else
    match mergeList params default_params with
    | (d, some e) => (d, some e)
    | (d, Option.none) =>
      if support_unknow then
        (d ++ params.filter (fun kv => !(default_keys.contains kv.1)), Option.none)
      else
        (d, Option.none)

/-- Python `s.split(sep)` for a single-character separator, on the
character list of the string: splits at every occurrence of `sep`,
keeping empty parts (`"".split(".") == [""]`, `"a..b".split(".") ==
["a", "", "b"]`). -/
def pySplit (sep : Char) : List Char → List (List Char)
  | [] => [[]]
  | c :: rest =>
    if c = sep then [] :: pySplit sep rest
    else
      match pySplit sep rest with
      | [] => [[c]]
      | f :: rs => (c :: f) :: rs

/-- The assignment `params_split[name][par] = v` with lazy bucket creation, as in
`split_params`: if bucket `name` exists, assign into it in place,
otherwise append the new bucket `{par: v}`. -/
def bucketSet (acc : List (String × Params)) (name par : String) (v : Value) :
    List (String × Params) :=
  if (acc.map Prod.fst).contains name then
    acc.map (fun b => if b.1 = name then (b.1, dictSet b.2 par v) else b)
  else
    acc ++ [(name, [(par, v)])]

/-- The loop of `split_params` (utils.py lines 280–290) over the items of
`params`, threading the accumulator `params_split` (which starts as
`{"public": {}}`): a key splitting into two parts goes into the bucket
named by its first part, a key with no dot goes into `"public"`, any
other key raises `ValueError("Expected only one . in key, but got {k}")`. -/
def splitGo (acc : List (String × Params)) : Params → Except PyError (List (String × Params))
  | [] => .ok acc
  | (k, v) :: rest =>
    match pySplit '.' k.toList with
    | [name, par] => splitGo (bucketSet acc (String.mk name) (String.mk par) v) rest
    | [_] => splitGo (bucketSet acc "public" k v) rest
    | _ => .error (.malformedKey k)

/-- Model of `split_params(params)` (utils.py lines 277–292). -/
def split_params (params : Params) : Except PyError (List (String × Params)) :=
  splitGo [("public", [])] params

/-- The flat key a bucket entry stands for: public-bucket keys unchanged,
other buckets' local keys prefixed with `"component."`. -/
def flatKey (name par : String) : String :=
  if name = "public" then par else name ++ "." ++ par

/-- Re-flattening of a split result, as the round-trip property states it:
prefix each non-public bucket's local keys with the bucket name and a dot,
take public-bucket keys unchanged. -/
def flattenSplit (s : List (String × Params)) : Params :=
  (s.map (fun b => b.2.map (fun pv => (flatKey b.1 pv.1, pv.2)))).flatten

/-- A flat key fit for the (amended) round-trip: zero or one dot, and a
one-dot key's component part is not the reserved name `"public"`. -/
def goodKeyB (k : String) : Bool :=
  match pySplit '.' k.toList with
  | [_] => true
  | [a, _] => !(String.mk a = "public")
  | _ => false

/-- A file system state: the set of directories known to exist, and the
files with their contents. -/
structure FS where
  dirs : List String
  files : List (String × String)

/-- The guarded `if not os.path.exists(d): os.makedirs(d)`. -/
def ensureDir (fs : FS) (d : String) : FS :=
  if fs.dirs.contains d then fs else { fs with dirs := fs.dirs ++ [d] }

/-- Python `shutil.copy(src, dst)`: copies the contents of `src` to `dst`,
failing when `src` does not exist. -/
def shutil_copy (fs : FS) (src dst : String) : Option FS :=
  match dictGet fs.files src with
  | some content => some { fs with files := dictSet fs.files dst content }
  | Option.none => Option.none

/-- Python `os.path.basename(p)`: the part after the last `/`. -/
def basename (p : String) : String :=
  String.mk ((pySplit '/' p.toList).getLastD [])

/-- Model of `create_model_dir(model_dir, model_blueprint, stage)` (utils.py lines
143–158): ensures `model_dir/log` and `model_dir/config` exist, computes
the blueprint's snapshot path under `config/`, and when `stage < 0` and
the given blueprint path differs from the snapshot path copies the
blueprint there.  Besides the new file-system state and the returned
snapshot path, the model records whether the copy was performed. -/
def create_model_dir (fs : FS) (model_dir model_blueprint : String) (stage : Int) :
    Option (FS × String × Bool) :=
  let fs1 := ensureDir fs (model_dir ++ "/log")
  let config_model_blueprint := model_dir ++ "/config/" ++ basename model_blueprint
  let fs2 := ensureDir fs1 (model_dir ++ "/config")
  if stage < 0 ∧ model_blueprint ≠ config_model_blueprint then
    match shutil_copy fs2 model_blueprint config_model_blueprint with
    | some fs3 => some (fs3, config_model_blueprint, true)
    | Option.none => Option.none
  else
    some (fs2, config_model_blueprint, false)

/-- A character the CSV layer cannot write bare inside a `;`-separated
field: the separator itself, the quote character, or a line break. -/
def needsQuote (l : List Char) : Bool :=
  l.any (fun c => c = ';' || c = '"' || c = '\n' || c = '\r')

/-- CSV escaping of a quoted field's body: each `"` is doubled. -/
def escQ : List Char → List Char
  | [] => []
  | c :: rest => if c = '"' then '"' :: '"' :: escQ rest else c :: escQ rest

/-- Minimal-quoting CSV field encoding (the `to_csv` default): a field
containing the separator, a quote or a line break is wrapped in quotes
with inner quotes doubled, any other field is written bare. -/
def encodeField (l : List Char) : List Char :=
  if needsQuote l then '"' :: (escQ l ++ ['"']) else l

/-- One row of the two-row nnet-config record: `label;value` and a
newline, with the value field CSV-encoded. -/
def writeRow (label value : List Char) : List Char :=
  label ++ ';' :: (encodeField value ++ ['\n'])

/-- Model of `write_nnet_config(model_blueprint, model_creation, nnet_config)`
(utils.py lines 127–130): the contents written to the `nnet_config` sink —
a two-row `;`-separated table with index labels `model_blueprint` and
`model_creation`.  The pandas CSV layer is modelled per §6 of the spec as
a `;`-delimited tabular file with minimal quoting. -/
def write_nnet_config (model_blueprint model_creation : String) : String :=
  String.mk (writeRow "model_blueprint".toList model_blueprint.toList
    ++ writeRow "model_creation".toList model_creation.toList)

/-- Reading a bare CSV field: everything up to (excluding) the next `;`
or line break. -/
def parseBare : List Char → List Char × List Char
  | [] => ([], [])
  | c :: rest =>
    if c = ';' ∨ c = '\n' then ([], c :: rest)
    else (c :: (parseBare rest).1, (parseBare rest).2)

mutual

/-- Reading a quoted CSV field body (after the opening quote): plain
characters accumulate; a quote character hands over to `parseQClose`.
An unterminated field is a parse error. -/
def parseQuoted : List Char → Option (List Char × List Char)
  | [] => Option.none
  | c :: rest =>
    if c = '"' then parseQClose rest
    else (parseQuoted rest).map (fun fr => (c :: fr.1, fr.2))

/-- The state just after a quote character inside a quoted field: a
second quote stands for a literal quote in the field, anything else
closes the field. -/
def parseQClose : List Char → Option (List Char × List Char)
  | [] => some ([], [])
  | c :: rest =>
    if c = '"' then (parseQuoted rest).map (fun fr => ('"' :: fr.1, fr.2))
    else some ([], c :: rest)

end

/-- Reading one CSV field: quoted if it starts with `"`, else bare. -/
def parseFieldStart (l : List Char) : Option (List Char × List Char) :=
  match l with
  | [] => some (parseBare [])
  | c :: rest => if c = '"' then parseQuoted rest else some (parseBare (c :: rest))

/-- Reading one two-column row `label;value` terminated by a newline (or
the end of the file): the label and value fields and the remaining input.
Rows with one or more than two columns are rejected, as the reader
expects the two-column shape of the record. -/
def parseRow2 (l : List Char) : Option ((List Char × List Char) × List Char) :=
  match parseFieldStart l with
  | some (label, r1) =>
    match r1 with
    | ';' :: r2 =>
      match parseFieldStart r2 with
      | some (value, r3) =>
        match r3 with
        | '\n' :: r4 => some ((label, value), r4)
        | [] => some ((label, value), [])
        | _ => Option.none
      | Option.none => Option.none
    | _ => Option.none
  | Option.none => Option.none

/-- Model of `read_nnet_config(nnet_config)` (utils.py lines 133–140) on the
contents of the record: parses the two-row `;`-separated table with the
first column as index, then looks up rows `model_blueprint` and
`model_creation`; fails when the record does not have that shape. -/
def read_nnet_config (contents : String) : Option (String × String) :=
  match parseRow2 contents.toList with
  | some ((l1, v1), rest) =>
    match parseRow2 rest with
    | some ((l2, v2), rest2) =>
      if rest2.isEmpty then
        let find := fun (lbl : String) =>
          if l1 = lbl.toList then some (String.mk v1)
          else if l2 = lbl.toList then some (String.mk v2)
          else Option.none
        match find "model_blueprint", find "model_creation" with
        | some bp, some mc => some (bp, mc)
        | _, _ => Option.none
      else Option.none
    | Option.none => Option.none
  | Option.none => Option.none

/-- The merge loop raises at `(k, v)` exactly when the override has an
incompatible value at `k`: the type tags fail the `isinstance` check
(with its bool-is-int subclass hole), the pair is not float-default /
int-or-bool-override, and neither side is `None`. -/
def incompatB (v pv : Value) : Bool :=
  !isinstOfType v pv && !(isFloatInst v && isIntInst pv) && !v.isNone && !pv.isNone

theorem dictGet_map_value {α β : Type} (f : String → α → β) :
    ∀ (l : List (String × α)) (k : String),
      dictGet (l.map (fun kv => (kv.1, f kv.1 kv.2))) k = (dictGet l k).map (f k) := by
  intro l k
  induction l with
  | nil => rfl
  | cons kv rest ih =>
    by_cases h : kv.1 = k
    · simp [dictGet, h]
    · simp [dictGet, h, ih]

theorem dictGet_append_left {α : Type} :
    ∀ (l1 l2 : List (String × α)) (k : String) (x : α),
      dictGet l1 k = some x → dictGet (l1 ++ l2) k = some x := by
  intro l1 l2 k x
  induction l1 with
  | nil => intro h; exact absurd h (by simp [dictGet])
  | cons kv rest ih =>
    intro h
    by_cases hk : kv.1 = k
    · simpa [dictGet, hk] using h
    · rw [List.cons_append]
      simp only [dictGet, hk, if_false, if_neg hk] at h ⊢
      exact ih h

theorem mergeList_fst_of_no_error (params : Params) :
    ∀ D : Params, (mergeList params D).2 = Option.none →
      (mergeList params D).1 = D.map (fun kv => (kv.1, mergeValue params kv.1 kv.2)) := by
  intro D
  induction D with
  | nil => intro _; rfl
  | cons kv rest ih =>
    obtain ⟨k, v⟩ := kv
    intro h2
    cases hstep : mergeStep params k v with
    | error e => simp [mergeList, hstep] at h2
    | ok v' =>
      simp only [mergeList, hstep] at h2 ⊢
      simp only [List.map_cons]
      refine congrArg₂ _ ?_ (ih h2)
      simp [mergeValue, hstep]

theorem mergeStep_eq_error_of_incompat (params : Params) (k : String) (v pv : Value)
    (hp : dictGet params k = some pv) (hinc : incompatB v pv = true) :
    mergeStep params k v = .error (.typeMismatch v.ptype pv.ptype k) := by
  simp only [incompatB, Bool.and_eq_true, Bool.not_eq_true'] at hinc
  obtain ⟨⟨⟨h1, h2⟩, h3⟩, h4⟩ := hinc
  simp [mergeStep, hp, h1, h2, h3, h4]

theorem mergeStep_error_inv (params : Params) (k : String) (v : Value) (e : PyError)
    (h : mergeStep params k v = .error e) :
    ∃ pv, dictGet params k = some pv ∧ incompatB v pv = true
      ∧ e = .typeMismatch v.ptype pv.ptype k := by
  cases hp : dictGet params k with
  | none => simp [mergeStep, hp] at h
  | some pv =>
    simp only [mergeStep, hp] at h
    by_cases h1 : isinstOfType v pv = true
    · simp [h1] at h
    · rw [if_neg h1] at h
      by_cases h2 : (isFloatInst v && isIntInst pv) = true
      · simp [h2] at h
      · rw [if_neg h2] at h
        by_cases h3 : (v.isNone || pv.isNone) = true
        · simp [h3] at h
        · rw [if_neg h3] at h
          injection h with h
          simp only [Bool.or_eq_true, not_or, Bool.not_eq_true] at h3
          refine ⟨pv, rfl, ?_, h.symm⟩
          simp [incompatB, h1, h2, h3.1, h3.2]

theorem mergeList_error_cause (params : Params) :
    ∀ (D : Params) (e : PyError), (mergeList params D).2 = some e →
      ∃ k v pv, (k, v) ∈ D ∧ dictGet params k = some pv ∧ incompatB v pv = true
        ∧ e = .typeMismatch v.ptype pv.ptype k := by
  intro D
  induction D with
  | nil => intro e h; simp [mergeList] at h
  | cons kv rest ih =>
    obtain ⟨k, v⟩ := kv
    intro e h
    cases hstep : mergeStep params k v with
    | error e' =>
      simp only [mergeList, hstep] at h
      injection h with h
      obtain ⟨pv, hp, hinc, he⟩ := mergeStep_error_inv params k v e' hstep
      exact ⟨k, v, pv, List.mem_cons_self _ _, hp, hinc, h ▸ he⟩
    | ok v' =>
      simp only [mergeList, hstep] at h
      obtain ⟨k0, v0, pv0, hmem, hp, hinc, he⟩ := ih e h
      exact ⟨k0, v0, pv0, List.mem_cons_of_mem _ hmem, hp, hinc, he⟩

theorem mergeList_snd_ne_none (params : Params) :
    ∀ (D : Params) (k : String) (v pv : Value),
      (k, v) ∈ D → dictGet params k = some pv → incompatB v pv = true →
      (mergeList params D).2 ≠ Option.none := by
  intro D
  induction D with
  | nil => intro k v pv hmem; exact absurd hmem (List.not_mem_nil _)
  | cons kv rest ih =>
    obtain ⟨k', v'⟩ := kv
    intro k v pv hmem hp hinc
    rcases List.mem_cons.mp hmem with heq | htail
    · obtain ⟨hk, hv⟩ := Prod.mk.injEq .. ▸ heq
      subst hk; subst hv
      simp [mergeList, mergeStep_eq_error_of_incompat params k v pv hp hinc]
    · cases hstep : mergeStep params k' v' with
      | error e => simp [mergeList, hstep]
      | ok v'' =>
        simp only [mergeList, hstep]
        exact ih k v pv htail hp hinc

theorem mergeList_error_shape (params : Params) :
    ∀ (D : Params) (e : PyError), (mergeList params D).2 = some e →
      ∃ D1 k v D2, D = D1 ++ (k, v) :: D2
        ∧ (mergeList params D).1
            = D1.map (fun kv => (kv.1, mergeValue params kv.1 kv.2)) ++ (k, v) :: D2
        ∧ mergeStep params k v = .error e := by
  intro D
  induction D with
  | nil => intro e h; simp [mergeList] at h
  | cons kv rest ih =>
    obtain ⟨k', v'⟩ := kv
    intro e h
    cases hstep : mergeStep params k' v' with
    | error e' =>
      simp only [mergeList, hstep] at h
      injection h with h
      subst h
      exact ⟨[], k', v', rest, rfl, by simp [mergeList, hstep], hstep⟩
    | ok v'' =>
      simp only [mergeList, hstep] at h
      obtain ⟨D1, k0, v0, D2, hD, hfst, hst⟩ := ih e h
      refine ⟨(k', v') :: D1, k0, v0, D2, by rw [hD, List.cons_append], ?_, hst⟩
      simp only [mergeList, hstep, hD, List.map_cons, List.cons_append]
      refine congrArg₂ _ ?_ (hD ▸ hfst)
      simp [mergeValue, hstep]

/-- C10: for every default and override mapping, calling
`assign_params_dict` with `force_check=True` fails — even when every
override key is present in the default mapping — because the
`force_check` branch iterates over the undefined name `param` instead of
`params`; so no merge with `force_check` enabled ever returns a result:
the call raises `NameError` with the default mapping untouched. -/
theorem C10_force_check_always_raises
    (default_params params : Params) (support_unknow : Bool) :
    assign_params_dict default_params params true support_unknow
      = (default_params, some (PyError.nameError "param")) := rfl

/-- C1 (code bug): the claim says that with `force_check` true and an
override key absent from the defaults the merge fails with an UnknownKey
error naming the first offending key; the code instead raises
`NameError: name 'param' is not defined` on the undefined loop variable,
before examining any key.  Evaluation at the failing input
`D = {}`, `O = {"k": 1}`, `force_check=True`. -/
theorem C1_force_check_raises_nameError :
    assign_params_dict [] [("k", Value.int 1)] true false
      = ([], some (PyError.nameError "param")) := rfl

/-- C6 (code bug): of the three claimed unknown-key outcomes, the
`force_check=true` leg does not fail with UnknownKey: the code raises
`NameError` on the undefined name `param`.  Evaluation at the failing
input `D = {"a": 1}`, `O = {"b": 2}`, `force_check=True`,
`support_unknown=False`. -/
theorem C6_force_check_leg_raises_nameError :
    assign_params_dict [("a", Value.int 1)] [("b", Value.int 2)] true false
      = ([("a", Value.int 1)], some (PyError.nameError "param")) := rfl

/-- C2 counterexample: a merge that fails with TypeMismatch on key `"b"`
leaves the default mapping partially overwritten — key `"a"`, processed
before the failing key, already carries its override value `5` in the
final state of the (in-place mutated) default mapping, which is therefore
not the mapping that was passed in. -/
theorem C2_counterexample :
    assign_params_dict [("a", Value.int 1), ("b", Value.int 2)]
        [("a", Value.int 5), ("b", Value.str "bad")] false false
      = ([("a", Value.int 5), ("b", Value.int 2)],
         some (PyError.typeMismatch PyType.int PyType.str "b"))
    ∧ ([("a", Value.int 5), ("b", Value.int 2)] : Params)
        ≠ [("a", Value.int 1), ("b", Value.int 2)] := by
  refine ⟨rfl, ?_⟩
  intro h
  simp only [List.cons.injEq, Prod.mk.injEq, Value.int.injEq] at h
  exact absurd h.1.2 (by decide)

/-- C2 (amended): a failed merge produces no return value (the call
raises), but the default mapping passed in is mutated in place: the final
state consists of the keys before the failing one carrying their merged
(possibly overridden) values, followed by the failing item and the rest
unchanged. -/
theorem C2_amended_failed_merge_mutates_in_place
    (D O R : Params) (su : Bool) (e : PyError)
    (h : assign_params_dict D O false su = (R, some e)) :
    ∃ D1 k v D2, D = D1 ++ (k, v) :: D2
      ∧ R = D1.map (fun kv => (kv.1, mergeValue O kv.1 kv.2)) ++ (k, v) :: D2
      ∧ mergeStep O k v = .error e := by
  rcases hml : mergeList O D with ⟨d, err⟩
  cases err with
  | none =>
    exfalso
    by_cases hsu : su = true <;>
      simp [assign_params_dict, hml, hsu] at h
  | some e' =>
    simp only [assign_params_dict, hml, if_neg (Bool.false_ne_true)] at h
    obtain ⟨hR, he⟩ := Prod.mk.injEq .. ▸ h
    injection he with he
    obtain ⟨D1, k, v, D2, hD, hfst, hst⟩ :=
      mergeList_error_shape O D e' (by rw [hml])
    exact ⟨D1, k, v, D2, hD, by rw [← hR, ← hfst, hml], he ▸ hst⟩

/-- C2 amended, witnessed at the counterexample input. -/
theorem C2_amended_witness :
    ∃ D1 k v D2,
      ([("a", Value.int 1), ("b", Value.int 2)] : Params) = D1 ++ (k, v) :: D2
      ∧ ([("a", Value.int 5), ("b", Value.int 2)] : Params)
          = D1.map (fun kv =>
              (kv.1, mergeValue [("a", Value.int 5), ("b", Value.str "bad")] kv.1 kv.2))
            ++ (k, v) :: D2
      ∧ mergeStep [("a", Value.int 5), ("b", Value.str "bad")] k v
          = .error (PyError.typeMismatch PyType.int PyType.str "b") :=
  C2_amended_failed_merge_mutates_in_place
    [("a", Value.int 1), ("b", Value.int 2)]
    [("a", Value.int 5), ("b", Value.str "bad")]
    [("a", Value.int 5), ("b", Value.int 2)] false
    (PyError.typeMismatch PyType.int PyType.str "b") rfl

/-- C4 counterexample: the claim demands a TypeMismatch whenever the type
tags differ (outside the float/int-widening and null cases), but with a
boolean default and an integer override the merge succeeds — Python's
`bool` is a subclass of `int`, so `isinstance(True, type(5))` holds and
the raw integer replaces the boolean without any error. -/
theorem C4_counterexample :
    assign_params_dict [("x", Value.bool true)] [("x", Value.int 5)] false false
      = ([("x", Value.int 5)], Option.none) := rfl

/-- C4 (amended): for a key present in both mappings whose values fail the
code's compatibility test — the `isinstance` check (which accepts a
boolean default with an integer override), the widening branch (which
accepts an integer or boolean override for a floating-point default), and
the null wildcard — the merge fails with a TypeMismatch error identifying
an offending key and the type tags of its two values. -/
theorem C4_amended_type_mismatch
    (D O : Params) (su : Bool) (k : String) (v pv : Value)
    (hmem : (k, v) ∈ D) (hov : dictGet O k = some pv)
    (hinc : incompatB v pv = true) :
    ∃ k' v' pv', (k', v') ∈ D ∧ dictGet O k' = some pv' ∧ incompatB v' pv' = true
      ∧ (assign_params_dict D O false su).2
          = some (PyError.typeMismatch v'.ptype pv'.ptype k') := by
  rcases hml : mergeList O D with ⟨d, err⟩
  cases err with
  | none =>
    exact absurd (by rw [hml]) (mergeList_snd_ne_none O D k v pv hmem hov hinc)
  | some e =>
    obtain ⟨k', v', pv', hmem', hov', hinc', he⟩ :=
      mergeList_error_cause O D e (by rw [hml])
    refine ⟨k', v', pv', hmem', hov', hinc', ?_⟩
    simp [assign_params_dict, hml, he]

/-- C4 amended, witnessed at the spec's scenario `D = {"dim": 40}`,
`O = {"dim": "bad"}`: the merge fails naming key `"dim"` with the integer
and string tags. -/
theorem C4_amended_witness :
    ∃ k' v' pv', (k', v') ∈ ([("dim", Value.int 40)] : Params)
      ∧ dictGet [("dim", Value.str "bad")] k' = some pv'
      ∧ incompatB v' pv' = true
      ∧ (assign_params_dict [("dim", Value.int 40)] [("dim", Value.str "bad")]
            false false).2
          = some (PyError.typeMismatch v'.ptype pv'.ptype k') :=
  C4_amended_type_mismatch [("dim", Value.int 40)] [("dim", Value.str "bad")] false
    "dim" (Value.int 40) (Value.str "bad") (List.mem_singleton.mpr rfl) rfl rfl

/-- C5: for every key whose default value is floating-point and whose
override value is a (genuine) integer, a returning merge stores the
override value widened to floating-point — with the integer's exact
value and a floating-point tag — never the raw integer. -/
theorem C5_numeric_widening
    (D O R : Params) (su : Bool) (k : String) (q : Rat) (n : Int)
    (hd : dictGet D k = some (Value.float q))
    (ho : dictGet O k = some (Value.int n))
    (h : assign_params_dict D O false su = (R, Option.none)) :
    dictGet R k = some (Value.float (Rat.ofInt n)) := by
  rcases hml : mergeList O D with ⟨d, err⟩
  cases err with
  | some e => simp [assign_params_dict, hml] at h
  | none =>
    have hone : (mergeList O D).2 = Option.none := by rw [hml]
    have hfst : (mergeList O D).1
        = D.map (fun kv => (kv.1, mergeValue O kv.1 kv.2)) :=
      mergeList_fst_of_no_error O D hone
    have hdm : dictGet d k = some (mergeValue O k (Value.float q)) := by
      have := dictGet_map_value (fun k v => mergeValue O k v) D k
      rw [← hfst, hml] at this
      simp only [this, hd, Option.map_some']
    have hmv : mergeValue O k (Value.float q) = Value.float (Rat.ofInt n) := by
      simp [mergeValue, mergeStep, ho, isinstOfType, isFloatInst, isIntInst,
        Value.ptype, timesOne]
    cases hsu : su with
    | false =>
      simp only [assign_params_dict, hml, if_neg (Bool.false_ne_true), hsu,
        Bool.false_eq_true, if_false] at h
      obtain ⟨hR, _⟩ := Prod.mk.injEq .. ▸ h
      rw [← hR, hdm, hmv]
    | true =>
      simp only [assign_params_dict, hml, if_neg (Bool.false_ne_true), hsu,
        if_true] at h
      obtain ⟨hR, _⟩ := Prod.mk.injEq .. ▸ h
      rw [← hR]
      exact dictGet_append_left _ _ _ _ (hmv ▸ hdm)

/-- C5, witnessed at the spec's scenario: merging `{"x": 1.0}` with
`{"x": 2}` yields `{"x": 2.0}` with a floating-point tag. -/
theorem C5_numeric_widening_witness :
    assign_params_dict [("x", Value.float 1)] [("x", Value.int 2)] false false
      = ([("x", Value.float 2)], Option.none)
    ∧ dictGet [("x", Value.float 2)] "x" = some (Value.float (Rat.ofInt 2)) :=
  ⟨rfl,
    C5_numeric_widening [("x", Value.float 1)] [("x", Value.int 2)]
      [("x", Value.float 2)] false "x" 1 2 rfl rfl rfl⟩


theorem toList_mk (l : List Char) : (String.mk l).toList = l := rfl

theorem mk_toList (s : String) : String.mk s.toList = s := by
  cases s
  rfl

theorem parseBare_no_sep (d : Char) (hd : d = ';' ∨ d = '\n') :
    ∀ (v r : List Char), (∀ c ∈ v, ¬(c = ';' ∨ c = '\n')) →
      parseBare (v ++ d :: r) = (v, d :: r) := by
  intro v
  induction v with
  | nil =>
    intro r _
    simp [parseBare, hd]
  | cons c v' ih =>
    intro r hv
    have hc : ¬(c = ';' ∨ c = '\n') := hv c (List.mem_cons_self _ _)
    simp [parseBare, hc, ih r (fun c' hc' => hv c' (List.mem_cons_of_mem _ hc'))]

theorem parseQuoted_escQ (d : Char) (hd : ¬d = '"') :
    ∀ (v r : List Char), parseQuoted (escQ v ++ '"' :: d :: r) = some (v, d :: r) := by
  intro v
  induction v with
  | nil =>
    intro r
    simp [escQ, parseQuoted, parseQClose, hd]
  | cons c v' ih =>
    intro r
    by_cases hc : c = '"'
    · subst hc
      simp [escQ, parseQuoted, parseQClose, ih r]
    · simp [escQ, hc, parseQuoted, ih r]

theorem needsQuote_false_mem {v : List Char} (h : needsQuote v = false) :
    ∀ c ∈ v, ¬(c = ';' ∨ c = '\n') ∧ ¬(c = '"') := by
  intro c hc
  simp only [needsQuote, List.any_eq_false, Bool.or_eq_true, decide_eq_true_eq] at h
  have := h c hc
  tauto

theorem parseFieldStart_encodeField (d : Char) (hd : d = ';' ∨ d = '\n') :
    ∀ (v r : List Char), parseFieldStart (encodeField v ++ d :: r) = some (v, d :: r) := by
  intro v r
  have hdq : ¬d = '"' := by rcases hd with h | h <;> simp [h]
  cases hq : needsQuote v with
  | true =>
    have hshape : encodeField v ++ d :: r = '"' :: (escQ v ++ '"' :: d :: r) := by
      simp [encodeField, hq]
    rw [hshape]
    simp [parseFieldStart, parseQuoted_escQ d hdq v r]
  | false =>
    have hmem := needsQuote_false_mem hq
    have hbare := parseBare_no_sep d hd v r (fun c hc => (hmem c hc).1)
    have hshape : encodeField v ++ d :: r = v ++ d :: r := by
      simp [encodeField, hq]
    rw [hshape]
    cases v with
    | nil => simp [parseFieldStart, hdq, parseBare, hd]
    | cons c v' =>
      have hcq : ¬(c = '"') := (hmem c (List.mem_cons_self _ _)).2
      simpa [parseFieldStart, hcq] using hbare

theorem parseRow2_writeRow (label value rest : List Char)
    (hlab : ∀ c ∈ label, ¬(c = ';' ∨ c = '\n')) (hq : label.head? ≠ some '"') :
    parseRow2 (writeRow label value ++ rest) = some ((label, value), rest) := by
  have hshape : writeRow label value ++ rest
      = label ++ ';' :: (encodeField value ++ '\n' :: rest) := by
    simp [writeRow]
  rw [hshape]
  have hbare := parseBare_no_sep ';' (Or.inl rfl) label
    (encodeField value ++ '\n' :: rest) hlab
  have hlabel : parseFieldStart (label ++ ';' :: (encodeField value ++ '\n' :: rest))
      = some (label, ';' :: (encodeField value ++ '\n' :: rest)) := by
    cases label with
    | nil => simp [parseFieldStart, parseBare]
    | cons c l' =>
      have hcq : ¬(c = '"') := by
        intro h
        exact hq (by simp [h])
      simpa [parseFieldStart, hcq] using hbare
  simp only [parseRow2, hlabel,
    parseFieldStart_encodeField '\n' (Or.inr rfl) value rest]

/-- C7: for every definition-location string and construction-expression
string, restoring after persisting (`read_nnet_config` after
`write_nnet_config` on the same record contents) reproduces the pair
exactly — in particular when the expression contains commas, which the
`;` field separator never collides with, and even when a value contains
`;` itself, which the CSV layer quotes. -/
theorem C7_record_roundtrip (loc expr : String) :
    read_nnet_config (write_nnet_config loc expr) = some (loc, expr) := by
  have hlab1 : ∀ c ∈ "model_blueprint".toList, ¬(c = ';' ∨ c = '\n') := by decide
  have hlab2 : ∀ c ∈ "model_creation".toList, ¬(c = ';' ∨ c = '\n') := by decide
  have hrow1 := parseRow2_writeRow "model_blueprint".toList loc.toList
    (writeRow "model_creation".toList expr.toList) hlab1 (by decide)
  have hrow2 := parseRow2_writeRow "model_creation".toList expr.toList [] hlab2 (by decide)
  rw [List.append_nil] at hrow2
  have hne : "model_blueprint".toList ≠ "model_creation".toList := by decide
  simp only [read_nnet_config, write_nnet_config, toList_mk, hrow1, hrow2]
  simp [hne, mk_toList]


theorem dictGet_dictSet_ne {α : Type} (k k' : String) (v : α) (hne : k' ≠ k) :
    ∀ l : List (String × α), dictGet (dictSet l k v) k' = dictGet l k' := by
  intro l
  induction l with
  | nil => simp [dictSet, dictGet, Ne.symm hne]
  | cons kv rest ih =>
    by_cases hk : kv.1 = k
    · simp [dictSet, dictGet, hk, Ne.symm hne]
    · by_cases hk' : kv.1 = k'
      · simp [dictSet, dictGet, hk, hk', hne]
      · simp [dictSet, dictGet, hk, hk', ih]

theorem dictSet_dictSet_same {α : Type} (k : String) (v : α) :
    ∀ l : List (String × α), dictSet (dictSet l k v) k v = dictSet l k v := by
  intro l
  induction l with
  | nil => simp [dictSet]
  | cons kv rest ih =>
    by_cases hk : kv.1 = k
    · simp [dictSet, hk]
    · simp [dictSet, hk, ih]

theorem ensureDir_mem (fs : FS) (d : String) : d ∈ (ensureDir fs d).dirs := by
  unfold ensureDir
  by_cases h : fs.dirs.contains d = true
  · rw [if_pos h]
    simpa using h
  · rw [if_neg h]
    simp

theorem ensureDir_mem_mono (fs : FS) (d e : String) (h : e ∈ fs.dirs) :
    e ∈ (ensureDir fs d).dirs := by
  unfold ensureDir
  by_cases hc : fs.dirs.contains d = true
  · rw [if_pos hc]; exact h
  · rw [if_neg hc]; simp [h]

theorem ensureDir_of_mem (fs : FS) (d : String) (h : d ∈ fs.dirs) :
    ensureDir fs d = fs := by
  unfold ensureDir
  rw [if_pos (by simpa using h)]

theorem ensureDir_files (fs : FS) (d : String) : (ensureDir fs d).files = fs.files := by
  unfold ensureDir
  by_cases hc : fs.dirs.contains d = true
  · rw [if_pos hc]
  · rw [if_neg hc]

theorem create_model_dir_stage_neg_eq (fs : FS) (md bp : String)
    (heq : bp = md ++ "/config/" ++ basename bp) :
    create_model_dir fs md bp (-1)
      = some (ensureDir (ensureDir fs (md ++ "/log")) (md ++ "/config"),
              md ++ "/config/" ++ basename bp, false) := by
  simp only [create_model_dir]
  rw [if_neg (fun hc => hc.2 heq)]

theorem create_model_dir_stage_neg_ne (fs : FS) (md bp c : String)
    (heq : bp ≠ md ++ "/config/" ++ basename bp)
    (hbp : dictGet fs.files bp = some c) :
    create_model_dir fs md bp (-1)
      = some ({ ensureDir (ensureDir fs (md ++ "/log")) (md ++ "/config") with
                  files := dictSet fs.files (md ++ "/config/" ++ basename bp) c },
              md ++ "/config/" ++ basename bp, true) := by
  have hfiles2 : (ensureDir (ensureDir fs (md ++ "/log")) (md ++ "/config")).files
      = fs.files := by
    rw [ensureDir_files, ensureDir_files]
  have hcopy : shutil_copy (ensureDir (ensureDir fs (md ++ "/log")) (md ++ "/config"))
      bp (md ++ "/config/" ++ basename bp)
      = some ({ ensureDir (ensureDir fs (md ++ "/log")) (md ++ "/config") with
                  files := dictSet fs.files (md ++ "/config/" ++ basename bp) c }) := by
    simp only [shutil_copy, hfiles2, hbp]
  simp only [create_model_dir]
  rw [if_pos ⟨by norm_num, heq⟩, hcopy]

theorem create_model_dir_stage_neg_eq_stable (g : FS) (md bp : String)
    (heq : bp = md ++ "/config/" ++ basename bp)
    (h1 : (md ++ "/log") ∈ g.dirs) (h2 : (md ++ "/config") ∈ g.dirs) :
    create_model_dir g md bp (-1)
      = some (g, md ++ "/config/" ++ basename bp, false) := by
  rw [create_model_dir_stage_neg_eq g md bp heq,
    ensureDir_of_mem _ _ h1, ensureDir_of_mem _ _ h2]

theorem create_model_dir_stage_neg_ne_stable (g : FS) (md bp c : String)
    (heq : bp ≠ md ++ "/config/" ++ basename bp)
    (h1 : (md ++ "/log") ∈ g.dirs) (h2 : (md ++ "/config") ∈ g.dirs)
    (hbp : dictGet g.files bp = some c)
    (hstable : dictSet g.files (md ++ "/config/" ++ basename bp) c = g.files) :
    create_model_dir g md bp (-1)
      = some (g, md ++ "/config/" ++ basename bp, true) := by
  simp only [create_model_dir]
  rw [if_pos ⟨by norm_num, heq⟩, ensureDir_of_mem _ _ h1, ensureDir_of_mem _ _ h2]
  have hcopy : shutil_copy g bp (md ++ "/config/" ++ basename bp) = some g := by
    simp only [shutil_copy, hbp, hstable]
  rw [hcopy]

/-- C8 counterexample: calling `create_model_dir` twice with `stage=-1`
and the same model directory and the same (original) blueprint path
performs the copy on both calls — the copy flag of the second call is
`true` again, not a no-op — because the code only skips the copy when the
given source path already equals the snapshot path. -/
theorem C8_counterexample :
    create_model_dir ⟨[], [("bp.py", "code")]⟩ "m" "bp.py" (-1)
      = some (⟨["m/log", "m/config"], [("bp.py", "code"), ("m/config/bp.py", "code")]⟩,
              "m/config/bp.py", true)
    ∧ create_model_dir
        ⟨["m/log", "m/config"], [("bp.py", "code"), ("m/config/bp.py", "code")]⟩
        "m" "bp.py" (-1)
      = some (⟨["m/log", "m/config"], [("bp.py", "code"), ("m/config/bp.py", "code")]⟩,
              "m/config/bp.py", true) :=
  ⟨rfl, rfl⟩

/-- C8 (amended): with `stage=-1` and an existing blueprint file, a second
call with the same model directory and the same source leaves the file
system exactly as the first call left it; the call performs no copy
precisely when the source path already equals the snapshot path (as when
the first call's returned path is passed back in), and performs the copy
again whenever they differ; every call ensures the model directory's
`log/` and `config/` subdirectories exist. -/
theorem C8_amended_idempotent_state (fs : FS) (md bp c : String)
    (hbp : dictGet fs.files bp = some c) :
    ∃ fs1 p b, create_model_dir fs md bp (-1) = some (fs1, p, b)
      ∧ create_model_dir fs1 md bp (-1) = some (fs1, p, b)
      ∧ (md ++ "/log") ∈ fs1.dirs ∧ (md ++ "/config") ∈ fs1.dirs
      ∧ (bp = md ++ "/config/" ++ basename bp → b = false)
      ∧ (bp ≠ md ++ "/config/" ++ basename bp → b = true) := by
  have hlog2 : (md ++ "/log")
      ∈ (ensureDir (ensureDir fs (md ++ "/log")) (md ++ "/config")).dirs :=
    ensureDir_mem_mono _ _ _ (ensureDir_mem fs _)
  have hconf2 : (md ++ "/config")
      ∈ (ensureDir (ensureDir fs (md ++ "/log")) (md ++ "/config")).dirs :=
    ensureDir_mem _ _
  by_cases heq : bp = md ++ "/config/" ++ basename bp
  · refine ⟨ensureDir (ensureDir fs (md ++ "/log")) (md ++ "/config"),
      md ++ "/config/" ++ basename bp, false,
      create_model_dir_stage_neg_eq fs md bp heq, ?_, hlog2, hconf2,
      fun _ => rfl, fun h => absurd heq h⟩
    exact create_model_dir_stage_neg_eq_stable _ md bp heq hlog2 hconf2
  · refine ⟨{ ensureDir (ensureDir fs (md ++ "/log")) (md ++ "/config") with
        files := dictSet fs.files (md ++ "/config/" ++ basename bp) c },
      md ++ "/config/" ++ basename bp, true,
      create_model_dir_stage_neg_ne fs md bp c heq hbp, ?_, hlog2, hconf2,
      fun h => absurd h heq, fun _ => rfl⟩
    have hbp1 : dictGet
        ({ ensureDir (ensureDir fs (md ++ "/log")) (md ++ "/config") with
            files := dictSet fs.files (md ++ "/config/" ++ basename bp) c} : FS).files
        bp = some c := by
      simpa [dictGet_dictSet_ne _ _ _ heq] using hbp
    exact create_model_dir_stage_neg_ne_stable _ md bp c heq hlog2 hconf2 hbp1
      (dictSet_dictSet_same _ _ _)

/-- C8 amended, witnessed at a concrete blueprint and model directory. -/
theorem C8_amended_witness :
    ∃ fs1 p b,
      create_model_dir ⟨[], [("bp.py", "code")]⟩ "m" "bp.py" (-1) = some (fs1, p, b)
      ∧ create_model_dir fs1 "m" "bp.py" (-1) = some (fs1, p, b)
      ∧ ("m" ++ "/log") ∈ fs1.dirs ∧ ("m" ++ "/config") ∈ fs1.dirs
      ∧ ("bp.py" = "m" ++ "/config/" ++ basename "bp.py" → b = false)
      ∧ ("bp.py" ≠ "m" ++ "/config/" ++ basename "bp.py" → b = true) :=
  C8_amended_idempotent_state ⟨[], [("bp.py", "code")]⟩ "m" "bp.py" "code" rfl

theorem pySplit_ne_nil (sep : Char) : ∀ l : List Char, pySplit sep l ≠ [] := by
  intro l
  induction l with
  | nil => simp [pySplit]
  | cons c rest ih =>
    by_cases hc : c = sep
    · simp [pySplit, hc]
    · cases h : pySplit sep rest with
      | nil => simp [pySplit, hc, h]
      | cons f rs => simp [pySplit, hc, h]

theorem pySplit_singleton {sep : Char} :
    ∀ {l a : List Char}, pySplit sep l = [a] → l = a := by
  intro l
  induction l with
  | nil =>
    intro a h
    simp only [pySplit, List.cons.injEq, and_true] at h
    exact h
  | cons c rest ih =>
    intro a h
    by_cases hc : c = sep
    · rw [pySplit, if_pos hc] at h
      obtain ⟨-, htail⟩ := List.cons.injEq .. ▸ h
      exact absurd htail (pySplit_ne_nil sep rest)
    · rw [pySplit, if_neg hc] at h
      cases hrest : pySplit sep rest with
      | nil => exact absurd hrest (pySplit_ne_nil sep rest)
      | cons f rs =>
        rw [hrest] at h
        obtain ⟨hhead, htail⟩ := List.cons.injEq .. ▸ h
        subst htail
        rw [← hhead, ih (by rw [hrest])]

theorem pySplit_two {sep : Char} :
    ∀ {l a b : List Char}, pySplit sep l = [a, b] → l = a ++ sep :: b := by
  intro l
  induction l with
  | nil =>
    intro a b h
    simp [pySplit] at h
  | cons c rest ih =>
    intro a b h
    by_cases hc : c = sep
    · rw [pySplit, if_pos hc] at h
      obtain ⟨hhead, htail⟩ := List.cons.injEq .. ▸ h
      rw [← hhead, hc, pySplit_singleton htail]
      rfl
    · rw [pySplit, if_neg hc] at h
      cases hrest : pySplit sep rest with
      | nil => exact absurd hrest (pySplit_ne_nil sep rest)
      | cons f rs =>
        rw [hrest] at h
        obtain ⟨hhead, htail⟩ := List.cons.injEq .. ▸ h
        have : rest = f ++ sep :: b := by
          apply ih
          rw [hrest]
          rw [show rs = [b] from htail]
        rw [← hhead, this]
        rfl

theorem string_eq_of_toList {s t : String} (h : s.toList = t.toList) : s = t := by
  cases s
  cases t
  exact congrArg String.mk h

theorem flatKey_two (k : String) (a b : List Char)
    (h : pySplit '.' k.toList = [a, b]) (hpub : String.mk a ≠ "public") :
    flatKey (String.mk a) (String.mk b) = k := by
  apply string_eq_of_toList
  rw [flatKey, if_neg hpub]
  have hk : k.toList = a ++ '.' :: b := pySplit_two h
  show (String.mk a ++ "." ++ String.mk b).data = k.toList
  rw [String.data_append, String.data_append, hk]
  simp

theorem dictSet_of_not_mem {α : Type} (k : String) (v : α) :
    ∀ l : List (String × α), k ∉ l.map Prod.fst → dictSet l k v = l ++ [(k, v)] := by
  intro l
  induction l with
  | nil => intro _; rfl
  | cons kv rest ih =>
    intro h
    simp only [List.map_cons, List.mem_cons, not_or] at h
    rw [dictSet, if_neg (fun he => h.1 he.symm), ih h.2]
    rfl

theorem flattenSplit_append (A B : List (String × Params)) :
    flattenSplit (A ++ B) = flattenSplit A ++ flattenSplit B := by
  simp [flattenSplit]

theorem flattenSplit_cons (b : String × Params) (B : List (String × Params)) :
    flattenSplit (b :: B)
      = b.2.map (fun pv => (flatKey b.1 pv.1, pv.2)) ++ flattenSplit B := rfl

theorem mem_flattenSplit_of_mem_bucket {acc : List (String × Params)} {name : String}
    {bucket : Params} (hmem : (name, bucket) ∈ acc) {par : String} {w : Value}
    (hpw : (par, w) ∈ bucket) :
    (flatKey name par, w) ∈ flattenSplit acc := by
  simp only [flattenSplit, List.mem_flatten]
  exact ⟨bucket.map (fun pv => (flatKey name pv.1, pv.2)),
    List.mem_map_of_mem _ hmem, List.mem_map_of_mem _ hpw⟩

theorem bucketSet_map_fst (acc : List (String × Params)) (name par : String) (v : Value) :
    (bucketSet acc name par v).map Prod.fst
      = if (acc.map Prod.fst).contains name then acc.map Prod.fst
        else acc.map Prod.fst ++ [name] := by
  simp only [bucketSet]
  by_cases hc : (acc.map Prod.fst).contains name = true
  · rw [if_pos hc, if_pos hc, List.map_map]
    apply List.map_congr_left
    intro b _
    by_cases hb : b.1 = name <;> simp [hb]
  · rw [if_neg hc, if_neg hc]
    simp

theorem bucketSet_nodup (acc : List (String × Params)) (name par : String) (v : Value)
    (hnd : (acc.map Prod.fst).Nodup) :
    ((bucketSet acc name par v).map Prod.fst).Nodup := by
  rw [bucketSet_map_fst]
  by_cases hc : (acc.map Prod.fst).contains name = true
  · rw [if_pos hc]
    exact hnd
  · rw [if_neg hc]
    have hname : name ∉ acc.map Prod.fst := fun h => hc (by simpa using h)
    simp [List.nodup_append, hnd, hname]

theorem flattenSplit_bucketSet (acc : List (String × Params)) (name par : String)
    (v : Value) (hnd : (acc.map Prod.fst).Nodup)
    (hfresh : flatKey name par ∉ (flattenSplit acc).map Prod.fst) :
    (flattenSplit (bucketSet acc name par v)).Perm
      (flattenSplit acc ++ [(flatKey name par, v)]) := by
  cases hc : (acc.map Prod.fst).contains name with
  | false =>
    have hc' : ¬((acc.map Prod.fst).contains name = true) := by
      rw [hc]
      simp
    have hb : bucketSet acc name par v = acc ++ [(name, [(par, v)])] := by
      simp only [bucketSet]
      rw [if_neg hc']
    rw [hb, flattenSplit_append]
    exact List.Perm.refl _
  | true =>
    have hmemname : name ∈ acc.map Prod.fst := by simpa using hc
    obtain ⟨b, hbmem, hbname⟩ := List.mem_map.mp hmemname
    obtain ⟨nm, bucket⟩ := b
    simp only at hbname
    subst hbname
    obtain ⟨A, B, hAB⟩ := List.append_of_mem hbmem
    have hnames : acc.map Prod.fst = A.map Prod.fst ++ nm :: B.map Prod.fst := by
      rw [hAB]
      simp
    have hnd' := hnd
    rw [hnames] at hnd'
    obtain ⟨hndA, hndc, hdisj⟩ := List.nodup_append.mp hnd'
    have hnotB : nm ∉ B.map Prod.fst := (List.nodup_cons.mp hndc).1
    have hnotA : nm ∉ A.map Prod.fst := fun hA => hdisj hA (List.mem_cons_self _ _)
    have hmapid : ∀ L : List (String × Params), (∀ a ∈ L, a.1 ≠ nm) →
        L.map (fun b => if b.1 = nm then (b.1, dictSet b.2 par v) else b) = L := by
      intro L hL
      have hid : L.map (fun b => if b.1 = nm then (b.1, dictSet b.2 par v) else b)
          = L.map id := List.map_congr_left (fun a ha => by simp [hL a ha])
      simpa using hid
    have hbs : bucketSet acc nm par v = A ++ (nm, dictSet bucket par v) :: B := by
      have hbs0 : bucketSet acc nm par v
          = acc.map (fun b => if b.1 = nm then (b.1, dictSet b.2 par v) else b) := by
        simp only [bucketSet]
        rw [if_pos hc]
      rw [hbs0, hAB, List.map_append, List.map_cons,
        hmapid A (fun a ha => fun he => hnotA (he ▸ List.mem_map_of_mem _ ha)),
        hmapid B (fun a ha => fun he => hnotB (he ▸ List.mem_map_of_mem _ ha))]
      simp
    have hpar : par ∉ bucket.map Prod.fst := by
      intro hp
      obtain ⟨pw, hpw, hpe⟩ := List.mem_map.mp hp
      obtain ⟨p1, p2⟩ := pw
      simp only at hpe
      subst hpe
      exact hfresh (List.mem_map_of_mem Prod.fst
        (mem_flattenSplit_of_mem_bucket hbmem hpw))
    rw [hbs, dictSet_of_not_mem _ _ _ hpar, hAB, flattenSplit_append,
      flattenSplit_append, flattenSplit_cons, flattenSplit_cons]
    simp only [List.map_append, List.append_assoc, List.map_cons, List.map_nil,
      List.singleton_append, List.nil_append]
    apply List.Perm.append_left
    apply List.Perm.append_left
    exact (List.perm_append_singleton _ _).symm

theorem splitGo_ok :
    ∀ (rest : Params) (acc : List (String × Params)),
      (acc.map Prod.fst).Nodup →
      (∀ kv ∈ rest, goodKeyB kv.1 = true) →
      (∀ kv ∈ rest, kv.1 ∉ (flattenSplit acc).map Prod.fst) →
      (rest.map Prod.fst).Nodup →
      ∃ s, splitGo acc rest = .ok s
        ∧ (flattenSplit s).Perm (flattenSplit acc ++ rest) := by
  intro rest
  induction rest with
  | nil =>
    intro acc _ _ _ _
    exact ⟨acc, rfl, by simp⟩
  | cons kv rest' ih =>
    obtain ⟨k, v⟩ := kv
    intro acc hacc hgood hfresh hndrest
    have hgoodk : goodKeyB k = true := hgood (k, v) (List.mem_cons_self _ _)
    have hfreshk : k ∉ (flattenSplit acc).map Prod.fst :=
      hfresh (k, v) (List.mem_cons_self _ _)
    have hknotin : k ∉ rest'.map Prod.fst := by
      have := hndrest
      simp only [List.map_cons, List.nodup_cons] at this
      exact this.1
    have hndrest' : (rest'.map Prod.fst).Nodup := by
      have := hndrest
      simp only [List.map_cons, List.nodup_cons] at this
      exact this.2
    rcases hs : pySplit '.' k.toList with - | ⟨a, - | ⟨b, - | ⟨c, tl⟩⟩⟩
    · exact absurd hs (pySplit_ne_nil '.' k.toList)
    · -- one part: public bucket, local key k itself
      have hflat : flatKey "public" k = k := by simp [flatKey]
      have hstep := flattenSplit_bucketSet acc "public" k v hacc (hflat ▸ hfreshk)
      rw [hflat] at hstep
      obtain ⟨s, hok, hperm⟩ := ih (bucketSet acc "public" k v)
        (bucketSet_nodup _ _ _ _ hacc)
        (fun kv hm => hgood kv (List.mem_cons_of_mem _ hm))
        (fun kv hm => by
          intro hmem
          have hkeys := hstep.map Prod.fst
          rw [List.map_append] at hkeys
          have := hkeys.mem_iff.mp hmem
          rcases List.mem_append.mp this with hold | hnew
          · exact hfresh kv (List.mem_cons_of_mem _ hm) hold
          · simp only [List.map_cons, List.map_nil, List.mem_singleton] at hnew
            exact hknotin (hnew ▸ List.mem_map_of_mem Prod.fst hm))
        hndrest'
      refine ⟨s, ?_, ?_⟩
      · rw [splitGo, hs]
        exact hok
      · refine hperm.trans ?_
        have := hstep.append_right rest'
        refine this.trans ?_
        simp
    · -- two parts: bucket `a`, local key `b`
      have hpub : String.mk a ≠ "public" := by
        have := hgoodk
        simp only [goodKeyB, hs] at this
        simpa using this
      have hflat : flatKey (String.mk a) (String.mk b) = k := flatKey_two k a b hs hpub
      have hstep := flattenSplit_bucketSet acc (String.mk a) (String.mk b) v hacc
        (hflat ▸ hfreshk)
      rw [hflat] at hstep
      obtain ⟨s, hok, hperm⟩ := ih (bucketSet acc (String.mk a) (String.mk b) v)
        (bucketSet_nodup _ _ _ _ hacc)
        (fun kv hm => hgood kv (List.mem_cons_of_mem _ hm))
        (fun kv hm => by
          intro hmem
          have hkeys := hstep.map Prod.fst
          rw [List.map_append] at hkeys
          have := hkeys.mem_iff.mp hmem
          rcases List.mem_append.mp this with hold | hnew
          · exact hfresh kv (List.mem_cons_of_mem _ hm) hold
          · simp only [List.map_cons, List.map_nil, List.mem_singleton] at hnew
            exact hknotin (hnew ▸ List.mem_map_of_mem Prod.fst hm))
        hndrest'
      refine ⟨s, ?_, ?_⟩
      · rw [splitGo, hs]
        exact hok
      · refine hperm.trans ?_
        have := hstep.append_right rest'
        refine this.trans ?_
        simp
    · -- three or more parts: contradicts goodKeyB
      exfalso
      have h2 := hgoodk
      simp only [goodKeyB] at h2
      rw [hs] at h2
      simp at h2

theorem splitGo_error_of_bad :
    ∀ (rest : Params) (acc : List (String × Params)) (k : String) (v : Value),
      (k, v) ∈ rest → 2 < (pySplit '.' k.toList).length →
      ∃ k', splitGo acc rest = .error (.malformedKey k')
        ∧ 2 < (pySplit '.' k'.toList).length ∧ k' ∈ rest.map Prod.fst := by
  intro rest
  induction rest with
  | nil =>
    intro acc k v hmem
    exact absurd hmem (List.not_mem_nil _)
  | cons kv0 rest' ih =>
    obtain ⟨k0, v0⟩ := kv0
    intro acc k v hmem hbad
    rcases hs : pySplit '.' k0.toList with - | ⟨a, - | ⟨b, - | ⟨c, tl⟩⟩⟩
    · exact absurd hs (pySplit_ne_nil '.' k0.toList)
    · -- k0 has one part, so the bad key is in the tail
      have hmem' : (k, v) ∈ rest' := by
        rcases List.mem_cons.mp hmem with heq | htail
        · obtain ⟨hk, -⟩ := Prod.mk.injEq .. ▸ heq
          subst hk
          rw [hs] at hbad
          simp at hbad
        · exact htail
      obtain ⟨k', hok, hlen, hmm⟩ := ih (bucketSet acc "public" k0 v0) k v hmem' hbad
      refine ⟨k', ?_, hlen, by simp [hmm]⟩
      rw [splitGo, hs]
      exact hok
    · have hmem' : (k, v) ∈ rest' := by
        rcases List.mem_cons.mp hmem with heq | htail
        · obtain ⟨hk, -⟩ := Prod.mk.injEq .. ▸ heq
          subst hk
          rw [hs] at hbad
          simp at hbad
        · exact htail
      obtain ⟨k', hok, hlen, hmm⟩ :=
        ih (bucketSet acc (String.mk a) (String.mk b) v0) k v hmem' hbad
      refine ⟨k', ?_, hlen, by simp [hmm]⟩
      rw [splitGo, hs]
      exact hok
    · refine ⟨k0, ?_, ?_, by simp⟩
      · rw [splitGo, hs]
      · rw [hs]
        simp

/-- C3 counterexample: the claim's round-trip fails on the one-dot key
`"public.x"`: `split_params` files it into the reserved `"public"` bucket
under local key `"x"`, and the re-flattening (public-bucket keys taken
unchanged) yields the pair `("x", 1)` — the original pair
`("public.x", 1)` is not reproduced. -/
theorem C3_counterexample :
    split_params [("public.x", Value.int 1)]
      = .ok [("public", [("x", Value.int 1)])]
    ∧ flattenSplit [("public", [("x", Value.int 1)])] = [("x", Value.int 1)]
    ∧ ("public.x", Value.int 1) ∉ flattenSplit [("public", [("x", Value.int 1)])] := by
  refine ⟨rfl, rfl, ?_⟩
  intro h
  rw [show flattenSplit [("public", [("x", Value.int 1)])] = [("x", Value.int 1)]
    from rfl] at h
  simp only [List.mem_singleton, Prod.mk.injEq] at h
  exact absurd h.1 (by decide)

/-- C3 (amended): for every flat mapping whose keys each contain zero or
one dot and no key's component part is the reserved name `"public"`,
`split_params` succeeds and re-flattening its result (prefixing each
non-public bucket's local keys with the bucket name and a dot, taking
public-bucket keys unchanged) reproduces exactly the original (key,
value) pairs — indeed up to permutation, so in particular as a set; every
original flat key maps to exactly one (component, local-key) pair. -/
theorem C3_amended_roundtrip (m : Params)
    (hnd : (m.map Prod.fst).Nodup)
    (hgood : (m.all fun kv => goodKeyB kv.1) = true) :
    ∃ s, split_params m = .ok s ∧ (flattenSplit s).Perm m
      ∧ ∀ kv, kv ∈ flattenSplit s ↔ kv ∈ m := by
  have hg : ∀ kv ∈ m, goodKeyB kv.1 = true := by
    intro kv hkv
    exact List.all_eq_true.mp hgood kv hkv
  obtain ⟨s, hok, hperm⟩ := splitGo_ok m [("public", [])] (by simp) hg
    (by simp [flattenSplit]) hnd
  have hperm' : (flattenSplit s).Perm m := by simpa [flattenSplit] using hperm
  exact ⟨s, hok, hperm', fun kv => hperm'.mem_iff⟩

/-- C3 amended, witnessed at `{"a.b": 1, "x": 2}`. -/
theorem C3_amended_witness :
    ∃ s, split_params [("a.b", Value.int 1), ("x", Value.int 2)] = .ok s
      ∧ (flattenSplit s).Perm [("a.b", Value.int 1), ("x", Value.int 2)]
      ∧ ∀ kv, kv ∈ flattenSplit s ↔ kv ∈ [("a.b", Value.int 1), ("x", Value.int 2)] :=
  C3_amended_roundtrip [("a.b", Value.int 1), ("x", Value.int 2)]
    (by decide) rfl

/-- C9: whenever some flat key contains more than one dot, `split_params`
fails with a MalformedKey error naming such a key (the first one in
insertion order); in particular `split({"a.b": 1, "a.c.d": 2})` fails
naming `"a.c.d"` — the one-dot key `"a.b"` is not the error. -/
theorem C9_malformed_key :
    (∀ (m : Params) (k : String) (v : Value), (k, v) ∈ m →
        2 < (pySplit '.' k.toList).length →
        ∃ k', split_params m = .error (.malformedKey k')
          ∧ 2 < (pySplit '.' k'.toList).length ∧ k' ∈ m.map Prod.fst)
    ∧ split_params [("a.b", Value.int 1), ("a.c.d", Value.int 2)]
        = .error (.malformedKey "a.c.d") := by
  constructor
  · intro m k v hmem hbad
    exact splitGo_error_of_bad m [("public", [])] k v hmem hbad
  · rfl

/-- C9, witnessed at a mapping whose only key has two dots. -/
theorem C9_malformed_key_witness :
    ∃ k', split_params [("a.c.d", Value.int 2)] = .error (.malformedKey k')
      ∧ 2 < (pySplit '.' k'.toList).length
      ∧ k' ∈ ([("a.c.d", Value.int 2)] : Params).map Prod.fst :=
  C9_malformed_key.1 [("a.c.d", Value.int 2)] "a.c.d" (Value.int 2)
    (List.mem_singleton.mpr rfl) (by decide)
